import Mathlib

/-!
# The `lfmap` package: a map owned by one worker goroutine

A shallow embedding of `lfmap.go`.  The package has two parts:

* the worker goroutine started by `NewLFmap`, which owns the Go map `im` and
  executes `for { c := <-m.commandChannel; switch c.operation { ... } }`;
* the handle `*LFmap`, whose methods check the `running` flag, build a
  `command`, hand it to the worker over the unbuffered `commandChannel` and,
  for `Get` and `Exists`, wait for the answer on `getChannel` / `existsChannel`.

All three channels are unbuffered, so every communication is a rendezvous.  The
worker goroutine is modelled by its private map together with the place where
it is currently blocked (`Loc`); a handle method is a function from the state
before the call to the outcome of the call and the state after it.  For
several callers sharing the handle, the methods are cut at their channel
operations and at their accesses to `running`, and the pieces of different
callers interleave (`advance`, `Shared`).

The payload type `interface{}` is a type parameter `α`; a value is an
`Option α`, with `none` for the nil interface value.
-/

namespace lfmap

variable {α : Type}

/-! ## Constants and data types (`lfmap.go`, lines 19-48) -/

/-- Operation code of a lookup request. -/
def get : Int := 1

/-- Operation code of a store request. -/
def set : Int := 2

/-- Operation code of a delete request. -/
def remove : Int := 3

/-- Operation code of a membership request. -/
def «exists» : Int := 4

/-- Operation code of the shutdown request. -/
def stop : Int := 5

/-- The Go struct `entry`: a key and the value stored under it. -/
structure entry (α : Type) where
  key : String
  value : Option α
deriving DecidableEq, Repr

/-- The Go struct `command`: an operation code and a pointer to an entry,
which may be nil. -/
structure command (α : Type) where
  operation : Int
  data : Option (entry α)
deriving DecidableEq, Repr

/-- The Go struct `getResult`: the answer to a lookup. -/
structure getResult (α : Type) where
  value : Option α
  «exists» : Bool
deriving DecidableEq, Repr

/-! ## The Go map `map[string]*entry` -/

/-- The worker's private map `im`, as an association list. -/
abbrev GoMap (α : Type) := List (String × entry α)

/-- The two-result index expression `e, ok := im[k]`: `some e` when `k` is
present, `none` (nil pointer, `ok = false`) when it is not. -/
def mapIndex (im : GoMap α) (k : String) : Option (entry α) :=
  match im with
  | [] => none
  | (k', e) :: rest => if k' = k then some e else mapIndex rest k

/-- The built-in `delete(im, k)`. -/
def mapDelete (im : GoMap α) (k : String) : GoMap α :=
  match im with
  | [] => []
  | (k', e) :: rest => if k' = k then mapDelete rest k else (k', e) :: mapDelete rest k

/-- The assignment `im[k] = e`: whatever was stored under `k` is replaced. -/
def mapAssign (im : GoMap α) (k : String) (e : entry α) : GoMap α :=
  (k, e) :: mapDelete im k

/-! ## The worker goroutine (`lfmap.go`, lines 57-82) -/

/-- The statement at which the worker goroutine is blocked. -/
inductive Loc (α : Type) where
  /-- Waiting in `c := <-m.commandChannel` (line 60). -/
  | recv
  /-- Waiting in `m.getChannel <- gr` (line 70). -/
  | sendGet (gr : getResult α)
  /-- Waiting in `m.existsChannel <- exists` (line 77). -/
  | sendExists (b : Bool)
  /-- Dead: `c.data.key` was evaluated with `c.data == nil`. -/
  | crashed
deriving DecidableEq, Repr

/-- The worker goroutine: its map and the statement it is blocked at. -/
structure Worker (α : Type) where
  im : GoMap α
  loc : Loc α
deriving DecidableEq, Repr

/-- The body of the worker's `for` loop once a command `c` has been received,
run up to the next statement at which the goroutine blocks.

The `switch` has no default clause, so an unknown operation code does nothing.
The `break` of `case stop` terminates the innermost enclosing `switch`
statement, not the `for`; the `for` has no condition, so after every clause
that does not block, control returns to the receive on line 60. -/
def dispatch (im : GoMap α) (c : command α) : Worker α :=
  if c.operation = get then
    match c.data with
    | none => { im := im, loc := Loc.crashed }
    | some d =>
      match mapIndex im d.key with
      | some e => { im := im, loc := Loc.sendGet { value := e.value, «exists» := true } }
      | none => { im := im, loc := Loc.sendGet { value := none, «exists» := false } }
  else if c.operation = set then
    match c.data with
    | none => { im := im, loc := Loc.crashed }
    | some d => { im := mapAssign im d.key d, loc := Loc.recv }
  else if c.operation = remove then
    match c.data with
    | none => { im := im, loc := Loc.crashed }
    | some d => { im := mapDelete im d.key, loc := Loc.recv }
  else if c.operation = «exists» then
    match c.data with
    | none => { im := im, loc := Loc.crashed }
    | some d => { im := im, loc := Loc.sendExists (mapIndex im d.key).isSome }
  else if c.operation = stop then
    { im := im, loc := Loc.recv }
  else
    { im := im, loc := Loc.recv }

/-! ## Rendezvous on the three channels -/

/-- Why a goroutine never gets past a channel operation. -/
inductive Halt where
  /-- The peer is not at the matching channel operation and never will be. -/
  | deadlock
  /-- The worker goroutine died of a nil pointer dereference. -/
  | nilDeref
deriving DecidableEq, Repr

/-- The statement `lfmap.commandChannel <- c` of a handle method: it completes
when the worker is at its receive, and the worker then runs `dispatch`. -/
def sendCommand (w : Worker α) (c : command α) : Except Halt (Worker α) :=
  match w.loc with
  | Loc.recv => Except.ok (dispatch w.im c)
  | Loc.crashed => Except.error Halt.nilDeref
  | _ => Except.error Halt.deadlock

/-- The expression `<-lfmap.getChannel`: it completes when the worker is at the
send of line 70; the worker then starts its next iteration. -/
def recvGet (w : Worker α) : Except Halt (getResult α × Worker α) :=
  match w.loc with
  | Loc.sendGet gr => Except.ok (gr, { w with loc := Loc.recv })
  | Loc.crashed => Except.error Halt.nilDeref
  | _ => Except.error Halt.deadlock

/-- The expression `<-lfmap.existsChannel`: it completes when the worker is at
the send of line 77; the worker then starts its next iteration. -/
def recvExists (w : Worker α) : Except Halt (Bool × Worker α) :=
  match w.loc with
  | Loc.sendExists b => Except.ok (b, { w with loc := Loc.recv })
  | Loc.crashed => Except.error Halt.nilDeref
  | _ => Except.error Halt.deadlock

/-! ## The handle (`lfmap.go`, lines 43-56 and 84-164) -/

/-- The Go struct `LFmap`.  The three channel fields are represented by the
goroutine at their far end. -/
structure LFmap (α : Type) where
  worker : Worker α
  running : Bool
deriving DecidableEq, Repr

/-- How a call of a handle method ends. -/
inductive Result (β : Type) where
  /-- The method returned normally with this value. -/
  | ret (b : β)
  /-- The method called `panic` with this message. -/
  | panic (msg : String)
  /-- The method never returns. -/
  | halt (h : Halt)
deriving DecidableEq, Repr

/-- The message of the `panic` every method but `IsRunning` raises when the
handle is not running. -/
def panicMsg : String := "Cannot interact with a non running LFmap!"

/-- The constructor `NewLFmap`: a worker with an empty map waiting for its first
command, and `running = true`. -/
def NewLFmap : LFmap α :=
  { worker := { im := [], loc := Loc.recv }, running := true }

/-- The method `Get` (lines 90-103). -/
def LFmap.Get (lfmap : LFmap α) (key : String) : Result (Option α × Bool) × LFmap α :=
  if !lfmap.running then (Result.panic panicMsg, lfmap)
  else
    let d : entry α := { key := key, value := none }
    let c : command α := { operation := get, data := some d }
    match sendCommand lfmap.worker c with
    | Except.error h => (Result.halt h, lfmap)
    | Except.ok w1 =>
      match recvGet w1 with
      | Except.error h => (Result.halt h, { lfmap with worker := w1 })
      | Except.ok (gr, w2) => (Result.ret (gr.value, gr.exists), { lfmap with worker := w2 })

/-- The method `Set` (lines 106-118). -/
def LFmap.Set (lfmap : LFmap α) (key : String) (value : Option α) : Result Unit × LFmap α :=
  if !lfmap.running then (Result.panic panicMsg, lfmap)
  else
    let d : entry α := { key := key, value := value }
    let c : command α := { operation := set, data := some d }
    match sendCommand lfmap.worker c with
    | Except.error h => (Result.halt h, lfmap)
    | Except.ok w1 => (Result.ret (), { lfmap with worker := w1 })

/-- The method `Remove` (lines 121-132). -/
def LFmap.Remove (lfmap : LFmap α) (key : String) : Result Unit × LFmap α :=
  if !lfmap.running then (Result.panic panicMsg, lfmap)
  else
    let d : entry α := { key := key, value := none }
    let c : command α := { operation := remove, data := some d }
    match sendCommand lfmap.worker c with
    | Except.error h => (Result.halt h, lfmap)
    | Except.ok w1 => (Result.ret (), { lfmap with worker := w1 })

/-- The method `Exists` (lines 135-147). -/
def LFmap.Exists (lfmap : LFmap α) (key : String) : Result Bool × LFmap α :=
  if !lfmap.running then (Result.panic panicMsg, lfmap)
  else
    let d : entry α := { key := key, value := none }
    let c : command α := { operation := «exists», data := some d }
    match sendCommand lfmap.worker c with
    | Except.error h => (Result.halt h, lfmap)
    | Except.ok w1 =>
      match recvExists w1 with
      | Except.error h => (Result.halt h, { lfmap with worker := w1 })
      | Except.ok (b, w2) => (Result.ret b, { lfmap with worker := w2 })

/-- The method `Stop` (lines 150-159): the command carries a nil `data`, and
`running` is cleared after the worker has taken the command. -/
def LFmap.Stop (lfmap : LFmap α) : Result Unit × LFmap α :=
  if !lfmap.running then (Result.panic panicMsg, lfmap)
  else
    let c : command α := { operation := stop, data := none }
    match sendCommand lfmap.worker c with
    | Except.error h => (Result.halt h, lfmap)
    | Except.ok w1 => (Result.ret (), { worker := w1, running := false })

/-- The method `IsRunning` (lines 162-164). -/
def LFmap.IsRunning (lfmap : LFmap α) : Bool :=
  lfmap.running

/-! ## Sequences of calls by one caller -/

/-- One call of a method of the handle. -/
inductive Call (α : Type) where
  | Get (key : String)
  | Set (key : String) (value : Option α)
  | Remove (key : String)
  | Exists (key : String)
  | Stop
  | IsRunning
deriving DecidableEq, Repr

/-- What a call hands back to its caller. -/
inductive Reply (α : Type) where
  /-- The two results of `Get`. -/
  | got (value : Option α) (found : Bool)
  /-- The result of `Exists`. -/
  | found (b : Bool)
  /-- The methods `Set`, `Remove` and `Stop` return nothing. -/
  | done
  /-- The result of `IsRunning`. -/
  | flag (b : Bool)
deriving DecidableEq, Repr

/-- Relabel the value a method returned. -/
def Result.map {β γ : Type} (f : β → γ) : Result β → Result γ
  | Result.ret b => Result.ret (f b)
  | Result.panic msg => Result.panic msg
  | Result.halt h => Result.halt h

/-- Run one call on the handle: its outcome and the state it leaves. -/
def LFmap.call (m : LFmap α) : Call α → Result (Reply α) × LFmap α
  | Call.Get key => ((m.Get key).1.map (fun p => Reply.got p.1 p.2), (m.Get key).2)
  | Call.Set key value => ((m.Set key value).1.map (fun _ => Reply.done), (m.Set key value).2)
  | Call.Remove key => ((m.Remove key).1.map (fun _ => Reply.done), (m.Remove key).2)
  | Call.Exists key => ((m.Exists key).1.map Reply.found, (m.Exists key).2)
  | Call.Stop => (m.Stop.1.map (fun _ => Reply.done), m.Stop.2)
  | Call.IsRunning => (Result.ret (Reply.flag m.IsRunning), m)

/-- The state left by a sequence of calls issued one after the other.  A call
that panics is taken to be recovered by its caller, so the calls after it are
still issued, on the state the panicking call left. -/
def LFmap.calls (m : LFmap α) : List (Call α) → LFmap α
  | [] => m
  | c :: cs => (m.call c).2.calls cs

/-- The pair `Get` returns for a key, read off the worker's map. -/
def lookupResult (im : GoMap α) (k : String) : Option α × Bool :=
  match mapIndex im k with
  | some e => (e.value, true)
  | none => (none, false)

/-- Whether a call is a call of `Stop`. -/
def Call.isStop : Call α → Bool
  | Call.Stop => true
  | _ => false

/-- Whether a call ended otherwise than by returning. -/
def Result.failed {β : Type} : Result β → Bool
  | Result.ret _ => false
  | Result.panic _ => true
  | Result.halt _ => true

/-! ## The worker on its own -/

/-- A value the worker hands over on one of its two answer channels. -/
inductive Msg (α : Type) where
  /-- Sent on `getChannel`. -/
  | onGet (gr : getResult α)
  /-- Sent on `existsChannel`. -/
  | onExists (b : Bool)
deriving DecidableEq, Repr

/-- The worker fed the commands `cs` in the order `commandChannel` delivers
them, with a receiver ready for every answer it offers: the answers it sends,
in order, and the worker afterwards.  A command is read only when the worker is
at its receive; a dead worker reads nothing more. -/
def Worker.run (w : Worker α) : List (command α) → List (Msg α) × Worker α
  | [] => ([], w)
  | c :: cs =>
    match w.loc with
    | Loc.recv =>
      match dispatch w.im c with
      | { im := im1, loc := Loc.sendGet gr } =>
        (Msg.onGet gr :: (Worker.run { im := im1, loc := Loc.recv } cs).1,
          (Worker.run { im := im1, loc := Loc.recv } cs).2)
      | { im := im1, loc := Loc.sendExists b } =>
        (Msg.onExists b :: (Worker.run { im := im1, loc := Loc.recv } cs).1,
          (Worker.run { im := im1, loc := Loc.recv } cs).2)
      | { im := im1, loc := Loc.recv } => Worker.run { im := im1, loc := Loc.recv } cs
      | { im := im1, loc := Loc.crashed } => ([], { im := im1, loc := Loc.crashed })
    | _ => ([], w)

/-! ## The requests the handle builds -/

/-- The command a handle method builds before it sends it: `Get`, `Remove` and
`Exists` allocate an entry holding the key only, `Set` one holding key and
value, `Stop` leaves `data` nil.  `IsRunning` builds no command. -/
def Call.request : Call α → Option (command α)
  | Call.Get key => some { operation := get, data := some { key := key, value := none } }
  | Call.Set key value => some { operation := set, data := some { key := key, value := value } }
  | Call.Remove key => some { operation := remove, data := some { key := key, value := none } }
  | Call.Exists key => some { operation := «exists», data := some { key := key, value := none } }
  | Call.Stop => some { operation := stop, data := none }
  | Call.IsRunning => none

/-- The results of a sequence of calls issued one after the other by a single
caller, each on the state the previous one left. -/
def LFmap.trace (m : LFmap α) : List (Call α) → List (Result (Reply α))
  | [] => []
  | c :: cs => (m.call c).1 :: (m.call c).2.trace cs

/-- The four calls that read or write the mapping. -/
inductive DataCall (α : Type) where
  | Get (key : String)
  | Set (key : String) (value : Option α)
  | Remove (key : String)
  | Exists (key : String)
deriving DecidableEq, Repr

/-- A data call as a call of the handle. -/
def DataCall.toCall : DataCall α → Call α
  | DataCall.Get key => Call.Get key
  | DataCall.Set key value => Call.Set key value
  | DataCall.Remove key => Call.Remove key
  | DataCall.Exists key => Call.Exists key

/-! ## Reference model: a plain partial map

The specification's reading of the store: a partial map from strings to values
that starts empty; `Set` inserts or overwrites, `Remove` erases, `Get` returns
`(value, true)` or `(nil, false)`, `Exists` returns membership. -/

/-- A partial map from keys to values; a stored value may itself be nil. -/
abbrev RefMap (α : Type) := String → Option (Option α)

/-- The reference map with no key. -/
def RefMap.empty : RefMap α := fun _ => none

/-- Insert or overwrite in the reference map. -/
def RefMap.insert (r : RefMap α) (k : String) (v : Option α) : RefMap α :=
  fun j => if j = k then some v else r j

/-- Erase from the reference map. -/
def RefMap.erase (r : RefMap α) (k : String) : RefMap α :=
  fun j => if j = k then none else r j

/-- One data call on the reference map: what it returns and the map after. -/
def RefMap.call (r : RefMap α) : DataCall α → Reply α × RefMap α
  | DataCall.Get k =>
    match r k with
    | some v => (Reply.got v true, r)
    | none => (Reply.got none false, r)
  | DataCall.Set k v => (Reply.done, r.insert k v)
  | DataCall.Remove k => (Reply.done, r.erase k)
  | DataCall.Exists k => (Reply.found (r k).isSome, r)

/-- The results of a sequence of data calls on the reference map. -/
def RefMap.trace (r : RefMap α) : List (DataCall α) → List (Reply α)
  | [] => []
  | d :: ds => (r.call d).1 :: (r.call d).2.trace ds

/-! ## Several callers sharing one handle

Each caller goroutine issues a list of calls.  Inside a method a caller meets
the rest of the program at four places only: the read of `running` that opens
every method, the send on `commandChannel`, the receive on `getChannel` or
`existsChannel`, and the write of `running` that ends `Stop`.  Each of them is
one atomic step; the steps of different callers interleave in any order, and
the step of a caller that is blocked on a channel leaves the state as it is. -/

/-- Where a caller stands inside the method it is executing. -/
inductive Phase where
  /-- Before the first statement of its next call. -/
  | ready
  /-- It has read `running = true` and is at `lfmap.commandChannel <- c`. -/
  | checked
  /-- Inside `Get`, at `gr := <-lfmap.getChannel` (line 101). -/
  | awaitGet
  /-- Inside `Exists`, at `<-lfmap.existsChannel` (line 146). -/
  | awaitExists
  /-- Inside `Stop`, at `lfmap.running = false` (line 158). -/
  | stopSent
deriving DecidableEq, Repr

/-- A caller goroutine: the calls it still has to complete (the first one is
the call in progress unless the phase is `ready`), where it stands, and the
calls it has completed, each with its outcome. -/
structure Caller (α : Type) where
  todo : List (Call α)
  phase : Phase
  log : List (Call α × Result (Reply α))
deriving Repr

/-- The call in progress ends with outcome `r`. -/
def Caller.finish (me : Caller α) (r : Result (Reply α)) : Caller α :=
  match me.todo with
  | [] => me
  | call :: rest => { todo := rest, phase := Phase.ready, log := me.log ++ [(call, r)] }

/-- One atomic step of a caller on the shared handle: the handle and the
caller afterwards, and the command the worker received in this step, if any.
A caller that has nothing to do, or is blocked on a channel, changes nothing.
As in `LFmap.calls`, a call that panics is taken to be recovered. -/
def advance (h : LFmap α) (me : Caller α) : LFmap α × Caller α × List (command α) :=
  match me.todo with
  | [] => (h, me, [])
  | call :: _ =>
    match me.phase with
    | Phase.ready =>
      match call with
      | Call.IsRunning => (h, me.finish (Result.ret (Reply.flag h.IsRunning)), [])
      | Call.Get _ =>
        if !h.running then (h, me.finish (Result.panic panicMsg), [])
        else (h, { me with phase := Phase.checked }, [])
      | Call.Set _ _ =>
        if !h.running then (h, me.finish (Result.panic panicMsg), [])
        else (h, { me with phase := Phase.checked }, [])
      | Call.Remove _ =>
        if !h.running then (h, me.finish (Result.panic panicMsg), [])
        else (h, { me with phase := Phase.checked }, [])
      | Call.Exists _ =>
        if !h.running then (h, me.finish (Result.panic panicMsg), [])
        else (h, { me with phase := Phase.checked }, [])
      | Call.Stop =>
        if !h.running then (h, me.finish (Result.panic panicMsg), [])
        else (h, { me with phase := Phase.checked }, [])
    | Phase.checked =>
      match call.request with
      | none => (h, me, [])
      | some cmd =>
        match sendCommand h.worker cmd with
        | Except.error _ => (h, me, [])
        | Except.ok w1 =>
          match call with
          | Call.Get _ => ({ h with worker := w1 }, { me with phase := Phase.awaitGet }, [cmd])
          | Call.Exists _ =>
            ({ h with worker := w1 }, { me with phase := Phase.awaitExists }, [cmd])
          | Call.Stop => ({ h with worker := w1 }, { me with phase := Phase.stopSent }, [cmd])
          | Call.Set _ _ => ({ h with worker := w1 }, me.finish (Result.ret Reply.done), [cmd])
          | Call.Remove _ => ({ h with worker := w1 }, me.finish (Result.ret Reply.done), [cmd])
          | Call.IsRunning => (h, me, [])
    | Phase.awaitGet =>
      match recvGet h.worker with
      | Except.error _ => (h, me, [])
      | Except.ok (gr, w2) =>
        ({ h with worker := w2 }, me.finish (Result.ret (Reply.got gr.value gr.exists)), [])
    | Phase.awaitExists =>
      match recvExists h.worker with
      | Except.error _ => (h, me, [])
      | Except.ok (b, w2) => ({ h with worker := w2 }, me.finish (Result.ret (Reply.found b)), [])
    | Phase.stopSent => ({ h with running := false }, me.finish (Result.ret Reply.done), [])

/-- The handle, the callers that share it, and the commands the worker has
received so far, oldest first. -/
structure Shared (α : Type) where
  handle : LFmap α
  callers : Nat → Caller α
  accepted : List (command α)

/-- Caller `i` takes one step. -/
def Shared.step (s : Shared α) (i : Nat) : Shared α :=
  { handle := (advance s.handle (s.callers i)).1,
    callers := Function.update s.callers i (advance s.handle (s.callers i)).2.1,
    accepted := s.accepted ++ (advance s.handle (s.callers i)).2.2 }

/-- The callers take steps in the order the schedule names them. -/
def Shared.run (s : Shared α) : List Nat → Shared α
  | [] => s
  | i :: rest => (s.step i).run rest

/-- The answer the worker computes for a lookup of `k` in the map `im`. -/
def getAnswer (im : GoMap α) (k : String) : getResult α :=
  match mapIndex im k with
  | some e => { value := e.value, «exists» := true }
  | none => { value := none, «exists» := false }

theorem mapIndex_mapDelete_self (im : GoMap α) (k : String) :
    mapIndex (mapDelete im k) k = none := by
  induction im with
  | nil => rfl
  | cons p rest ih =>
    obtain ⟨j, e⟩ := p
    by_cases h : j = k
    · simpa [mapDelete, h] using ih
    · simpa [mapDelete, mapIndex, h] using ih

theorem mapIndex_mapAssign_self (im : GoMap α) (k : String) (e : entry α) :
    mapIndex (mapAssign im k e) k = some e := by
  simp [mapAssign, mapIndex]

theorem mapDelete_of_absent (im : GoMap α) (k : String) (h : mapIndex im k = none) :
    mapDelete im k = im := by
  induction im with
  | nil => rfl
  | cons p rest ih =>
    obtain ⟨j, e⟩ := p
    by_cases hj : j = k
    · simp [mapIndex, hj] at h
    · simp only [mapIndex, hj, if_false] at h
      simp [mapDelete, hj, ih h]

theorem mapDelete_mapDelete (im : GoMap α) (k : String) :
    mapDelete (mapDelete im k) k = mapDelete im k :=
  mapDelete_of_absent _ _ (mapIndex_mapDelete_self im k)

theorem mapIndex_mapDelete_ne (im : GoMap α) (k k' : String) (h : k ≠ k') :
    mapIndex (mapDelete im k) k' = mapIndex im k' := by
  induction im with
  | nil => rfl
  | cons p rest ih =>
    obtain ⟨j, e⟩ := p
    by_cases hj : j = k
    · subst hj
      simpa [mapDelete, mapIndex, h] using ih
    · by_cases hj' : j = k'
      · subst hj'
        simp [mapDelete, mapIndex, hj]
      · simpa [mapDelete, mapIndex, hj, hj'] using ih

theorem mapIndex_mapAssign_ne (im : GoMap α) (k k' : String) (e : entry α) (h : k ≠ k') :
    mapIndex (mapAssign im k e) k' = mapIndex im k' := by
  simp only [mapAssign, mapIndex, h, if_false]
  exact mapIndex_mapDelete_ne im k k' h

/-! ## The handle methods on a running handle whose worker is at its receive -/

theorem Get_running (m : LFmap α) (k : String)
    (hrun : m.running = true) (hloc : m.worker.loc = Loc.recv) :
    m.Get k = (Result.ret (lookupResult m.worker.im k), m) := by
  obtain ⟨⟨im, loc⟩, running⟩ := m
  simp only at hrun hloc
  subst hrun hloc
  simp only [LFmap.Get, sendCommand, dispatch, recvGet, lookupResult]
  cases mapIndex im k <;> simp

theorem Exists_running (m : LFmap α) (k : String)
    (hrun : m.running = true) (hloc : m.worker.loc = Loc.recv) :
    m.Exists k = (Result.ret (mapIndex m.worker.im k).isSome, m) := by
  obtain ⟨⟨im, loc⟩, running⟩ := m
  simp only at hrun hloc
  subst hrun hloc
  simp [LFmap.Exists, sendCommand, dispatch, recvExists, get, set, remove, «exists»]

theorem Set_running (m : LFmap α) (k : String) (v : Option α)
    (hrun : m.running = true) (hloc : m.worker.loc = Loc.recv) :
    m.Set k v = (Result.ret (),
      { worker := { im := mapAssign m.worker.im k { key := k, value := v }, loc := Loc.recv },
        running := true }) := by
  obtain ⟨⟨im, loc⟩, running⟩ := m
  simp only at hrun hloc
  subst hrun hloc
  simp [LFmap.Set, sendCommand, dispatch, get, set]

theorem Remove_running (m : LFmap α) (k : String)
    (hrun : m.running = true) (hloc : m.worker.loc = Loc.recv) :
    m.Remove k = (Result.ret (),
      { worker := { im := mapDelete m.worker.im k, loc := Loc.recv }, running := true }) := by
  obtain ⟨⟨im, loc⟩, running⟩ := m
  simp only at hrun hloc
  subst hrun hloc
  simp [LFmap.Remove, sendCommand, dispatch, get, set, remove]

theorem Stop_running (m : LFmap α)
    (hrun : m.running = true) (hloc : m.worker.loc = Loc.recv) :
    m.Stop = (Result.ret (),
      { worker := { im := m.worker.im, loc := Loc.recv }, running := false }) := by
  obtain ⟨⟨im, loc⟩, running⟩ := m
  simp only at hrun hloc
  subst hrun hloc
  simp [LFmap.Stop, sendCommand, dispatch, get, set, remove, «exists», stop]

/-! ## The handle methods on a handle that is not running -/

theorem Get_stopped (m : LFmap α) (k : String) (h : m.running = false) :
    m.Get k = (Result.panic panicMsg, m) := by
  simp [LFmap.Get, h]

theorem Set_stopped (m : LFmap α) (k : String) (v : Option α) (h : m.running = false) :
    m.Set k v = (Result.panic panicMsg, m) := by
  simp [LFmap.Set, h]

theorem Remove_stopped (m : LFmap α) (k : String) (h : m.running = false) :
    m.Remove k = (Result.panic panicMsg, m) := by
  simp [LFmap.Remove, h]

theorem Exists_stopped (m : LFmap α) (k : String) (h : m.running = false) :
    m.Exists k = (Result.panic panicMsg, m) := by
  simp [LFmap.Exists, h]

theorem Stop_stopped (m : LFmap α) (h : m.running = false) :
    m.Stop = (Result.panic panicMsg, m) := by
  simp [LFmap.Stop, h]

/-- A call on a handle that is not running leaves the state as it was. -/
theorem call_stopped_state (m : LFmap α) (c : Call α) (h : m.running = false) :
    (m.call c).2 = m := by
  cases c <;>
    simp [LFmap.call, Get_stopped, Set_stopped, Remove_stopped, Exists_stopped,
      Stop_stopped, h]

/-! ## Invariants of call sequences -/

/-- Between two calls of a single caller the worker is back at its receive. -/
theorem call_loc (m : LFmap α) (c : Call α) (hloc : m.worker.loc = Loc.recv) :
    (m.call c).2.worker.loc = Loc.recv := by
  cases hrun : m.running
  · rw [call_stopped_state m c hrun]; exact hloc
  · cases c <;>
      simp [LFmap.call, Get_running, Set_running, Remove_running, Exists_running,
        Stop_running, hrun, hloc]

theorem calls_loc (cs : List (Call α)) (m : LFmap α) (hloc : m.worker.loc = Loc.recv) :
    (m.calls cs).worker.loc = Loc.recv := by
  induction cs generalizing m with
  | nil => exact hloc
  | cons c cs ih => exact ih _ (call_loc m c hloc)

/-- A key that is absent stays absent under every call other than a `Set` of
that key. -/
theorem call_absent (m : LFmap α) (c : Call α) (k : String)
    (hloc : m.worker.loc = Loc.recv) (habs : mapIndex m.worker.im k = none)
    (hc : ∀ v, c ≠ Call.Set k v) :
    mapIndex (m.call c).2.worker.im k = none := by
  cases hrun : m.running
  · rw [call_stopped_state m c hrun]; exact habs
  · cases c with
    | Get key => simpa [LFmap.call, Get_running, hrun, hloc] using habs
    | Set key value =>
      have hne : key ≠ k := by
        intro h
        exact hc value (by rw [h])
      simp only [LFmap.call, Set_running m key value hrun hloc]
      rw [mapIndex_mapAssign_ne _ _ _ _ hne]
      exact habs
    | Remove key =>
      simp only [LFmap.call, Remove_running m key hrun hloc]
      by_cases hk : key = k
      · subst hk; exact mapIndex_mapDelete_self _ _
      · rw [mapIndex_mapDelete_ne _ _ _ hk]; exact habs
    | Exists key => simpa [LFmap.call, Exists_running, hrun, hloc] using habs
    | Stop => simpa [LFmap.call, Stop_running, hrun, hloc] using habs
    | IsRunning => simpa [LFmap.call] using habs

theorem calls_absent (cs : List (Call α)) (m : LFmap α) (k : String)
    (hloc : m.worker.loc = Loc.recv) (habs : mapIndex m.worker.im k = none)
    (hcs : ∀ v, Call.Set k v ∉ cs) :
    mapIndex (m.calls cs).worker.im k = none := by
  induction cs generalizing m with
  | nil => exact habs
  | cons c cs ih =>
    refine ih _ (call_loc m c hloc) (call_absent m c k hloc habs ?_) ?_
    · intro v hv
      exact hcs v (by simp [hv])
    · intro v hv
      exact hcs v (by simp [hv])

/-- Deleting a key leaves no pair with that key in the association list. -/
theorem filter_mapDelete_self (im : GoMap α) (k : String) :
    (mapDelete im k).filter (fun p => decide (p.1 = k)) = [] := by
  induction im with
  | nil => rfl
  | cons p rest ih =>
    obtain ⟨j, e⟩ := p
    by_cases hj : j = k
    · simpa [mapDelete, hj] using ih
    · simp only [mapDelete, hj, if_false]
      rw [List.filter_cons_of_neg (by simpa using hj)]
      exact ih

/-! ## The claims -/

/-- C1 — Set-then-Get round trip.  On every running handle whose worker waits
for a command, for every key `k` and every value `v` (nil, that is `none`,
included), `Set(k, v)` returns, the `Get(k)` that follows returns `(v, true)`,
and `Exists(k)` returns `true`, whether it is called right after the `Set` or
after the `Get`. -/
theorem set_then_get_round_trip (m : LFmap α) (k : String) (v : Option α)
    (hrun : m.running = true) (hloc : m.worker.loc = Loc.recv) :
    (m.Set k v).1 = Result.ret () ∧
    ((m.Set k v).2.Get k).1 = Result.ret (v, true) ∧
    ((m.Set k v).2.Exists k).1 = Result.ret true ∧
    (((m.Set k v).2.Get k).2.Exists k).1 = Result.ret true := by
  rw [Set_running m k v hrun hloc]
  simp [Get_running, Exists_running, lookupResult, mapIndex_mapAssign_self]

/-- Instance of C1: on a map that already holds `"key1"`, storing nil under
`"key1"` makes `Get` return `(nil, true)`. -/
theorem set_then_get_round_trip_witness :
    (((({ worker := { im := [("key1", { key := "key1", value := some 5 })], loc := Loc.recv },
          running := true } : LFmap Nat).Set "key1" none).2.Get "key1").1
      = Result.ret (none, true)) :=
  (set_then_get_round_trip
    ({ worker := { im := [("key1", { key := "key1", value := some 5 })], loc := Loc.recv },
       running := true } : LFmap Nat) "key1" none rfl rfl).2.1

/-- C2 — Absence before insertion.  Take a handle built by `NewLFmap` and any
sequence of calls in which no `Set` of key `k` occurs.  If the handle is still
running after them, `Exists(k)` returns `false` and `Get(k)` returns
`(nil, false)`. -/
theorem absent_before_insertion (cs : List (Call α)) (k : String)
    (hcs : ∀ v, Call.Set k v ∉ cs)
    (hrun : ((NewLFmap : LFmap α).calls cs).running = true) :
    (((NewLFmap : LFmap α).calls cs).Exists k).1 = Result.ret false ∧
    (((NewLFmap : LFmap α).calls cs).Get k).1 = Result.ret (none, false) := by
  have hloc := calls_loc cs (NewLFmap : LFmap α) rfl
  have habs := calls_absent cs (NewLFmap : LFmap α) k rfl rfl hcs
  rw [Exists_running _ k hrun hloc, Get_running _ k hrun hloc]
  simp [lookupResult, habs]

/-- Instance of C2: after `Set("a", 1)`, `Get("a")` and `Remove("b")` on a new
map, key `"b"` is absent. -/
theorem absent_before_insertion_witness :
    (((NewLFmap : LFmap Nat).calls
        [Call.Set "a" (some 1), Call.Get "a", Call.Remove "b"]).Exists "b").1 = Result.ret false ∧
    (((NewLFmap : LFmap Nat).calls
        [Call.Set "a" (some 1), Call.Get "a", Call.Remove "b"]).Get "b").1
      = Result.ret (none, false) :=
  absent_before_insertion [Call.Set "a" (some 1), Call.Get "a", Call.Remove "b"] "b"
    (by intro v; simp) (by decide)

/-- C3 — Overwrite, last write wins.  On every running handle whose worker
waits for a command, `Set(k, v1)` then `Set(k, v2)` both return, the `Get(k)`
that follows returns `(v2, true)`, and the worker's map then holds exactly one
entry under `k`, the one with value `v2`. -/
theorem overwrite_last_write_wins (m : LFmap α) (k : String) (v1 v2 : Option α)
    (hrun : m.running = true) (hloc : m.worker.loc = Loc.recv) :
    (m.Set k v1).1 = Result.ret () ∧
    ((m.Set k v1).2.Set k v2).1 = Result.ret () ∧
    (((m.Set k v1).2.Set k v2).2.Get k).1 = Result.ret (v2, true) ∧
    ((m.Set k v1).2.Set k v2).2.worker.im.filter (fun p => decide (p.1 = k))
      = [(k, { key := k, value := v2 })] := by
  rw [Set_running m k v1 hrun hloc]
  rw [Set_running _ k v2 rfl rfl]
  refine ⟨rfl, rfl, ?_, ?_⟩
  · simp [Get_running, lookupResult, mapIndex_mapAssign_self]
  · show List.filter _ (mapAssign _ k _) = _
    unfold mapAssign
    rw [List.filter_cons_of_pos (by simp), filter_mapDelete_self]

/-- Instance of C3: `"value1"` then `"value2"` under `"key1"` on a new map. -/
theorem overwrite_last_write_wins_witness :
    (((((NewLFmap : LFmap String).Set "key1" (some "value1")).2.Set "key1"
        (some "value2")).2.Get "key1").1 = Result.ret (some "value2", true)) :=
  (overwrite_last_write_wins (NewLFmap : LFmap String) "key1" (some "value1")
    (some "value2") rfl rfl).2.2.1

/-- C4 — Remove after Set.  On every running handle whose worker waits for a
command, after `Set(k, v)` and then `Remove(k)`, both of which return,
`Exists(k)` returns `false` and `Get(k)` returns `(nil, false)`. -/
theorem remove_after_set (m : LFmap α) (k : String) (v : Option α)
    (hrun : m.running = true) (hloc : m.worker.loc = Loc.recv) :
    (m.Set k v).1 = Result.ret () ∧
    ((m.Set k v).2.Remove k).1 = Result.ret () ∧
    (((m.Set k v).2.Remove k).2.Exists k).1 = Result.ret false ∧
    (((m.Set k v).2.Remove k).2.Get k).1 = Result.ret (none, false) := by
  rw [Set_running m k v hrun hloc]
  rw [Remove_running _ k rfl rfl]
  simp [Get_running, Exists_running, lookupResult, mapIndex_mapDelete_self]

/-- Instance of C4: the end of `Test_basic`. -/
theorem remove_after_set_witness :
    (((((NewLFmap : LFmap String).Set "key1" (some "value2")).2.Remove "key1").2.Exists
        "key1").1 = Result.ret false) :=
  (remove_after_set (NewLFmap : LFmap String) "key1" (some "value2") rfl rfl).2.2.1

/-- C5 — Remove of an absent key is a no-op.  On every running handle whose
worker waits for a command: if `k` is not in the map, `Remove(k)` returns and
leaves the whole state (map, worker, running flag) as it was; and for every
key, present or not, a second `Remove(k)` returns and leaves the state the
first `Remove(k)` left. -/
theorem remove_absent_is_noop (m : LFmap α) (k : String)
    (hrun : m.running = true) (hloc : m.worker.loc = Loc.recv) :
    (mapIndex m.worker.im k = none → m.Remove k = (Result.ret (), m)) ∧
    (m.Remove k).1 = Result.ret () ∧
    (m.Remove k).2.Remove k = (Result.ret (), (m.Remove k).2) := by
  refine ⟨?_, ?_, ?_⟩
  · intro habs
    rw [Remove_running m k hrun hloc, mapDelete_of_absent _ _ habs]
    obtain ⟨⟨im, loc⟩, running⟩ := m
    simp only at hrun hloc
    subst hrun hloc
    rfl
  · rw [Remove_running m k hrun hloc]
  · rw [Remove_running m k hrun hloc, Remove_running _ k rfl rfl]
    simp [mapDelete_mapDelete]

/-- Instance of C5: removing `"b"` from a map that holds only `"a"`. -/
theorem remove_absent_is_noop_witness :
    (({ worker := { im := [("a", { key := "a", value := some 1 })], loc := Loc.recv },
        running := true } : LFmap Nat).Remove "b")
      = (Result.ret (),
         ({ worker := { im := [("a", { key := "a", value := some 1 })], loc := Loc.recv },
            running := true } : LFmap Nat)) :=
  (remove_absent_is_noop
    ({ worker := { im := [("a", { key := "a", value := some 1 })], loc := Loc.recv },
       running := true } : LFmap Nat) "b" rfl rfl).1 (by decide)

/-- A handle that is not running stays as it is under every sequence of
calls. -/
theorem calls_stopped_state (cs : List (Call α)) (m : LFmap α) (h : m.running = false) :
    m.calls cs = m := by
  induction cs with
  | nil => rfl
  | cons c cs ih =>
    show (m.call c).2.calls cs = m
    rw [call_stopped_state m c h]
    exact ih

/-- When `Stop` returns, the flag is cleared. -/
theorem Stop_ret_running (m m' : LFmap α) (h : m.Stop = (Result.ret (), m')) :
    m'.running = false := by
  unfold LFmap.Stop at h
  cases hrun : m.running
  · simp [hrun] at h
  · simp only [hrun, Bool.not_true, Bool.false_eq_true, if_false] at h
    cases hs : sendCommand m.worker { operation := stop, data := none } with
    | error e => simp [hs] at h
    | ok w1 =>
      simp only [hs, Prod.mk.injEq] at h
      rw [← h.2]

/-- C6 — Post-stop precondition.  Once `Stop()` has returned on a handle, then
after every sequence of later calls, `IsRunning()` returns `false` and each of
`Get`, `Set`, `Remove`, `Exists` and `Stop` (so a second `Stop` too), for every
key and value, panics with the misuse message instead of returning. -/
theorem post_stop_precondition (m m' : LFmap α) (hstop : m.Stop = (Result.ret (), m'))
    (cs : List (Call α)) (k : String) (v : Option α) :
    (m'.calls cs).IsRunning = false ∧
    ((m'.calls cs).Get k).1 = Result.panic panicMsg ∧
    ((m'.calls cs).Set k v).1 = Result.panic panicMsg ∧
    ((m'.calls cs).Remove k).1 = Result.panic panicMsg ∧
    ((m'.calls cs).Exists k).1 = Result.panic panicMsg ∧
    (m'.calls cs).Stop.1 = Result.panic panicMsg := by
  have h := Stop_ret_running m m' hstop
  rw [calls_stopped_state cs m' h]
  simp [LFmap.IsRunning, Get_stopped, Set_stopped, Remove_stopped, Exists_stopped,
    Stop_stopped, h]

/-- Instance of C6: a second `Stop` on a map that held one key panics. -/
theorem post_stop_precondition_witness :
    ((((NewLFmap : LFmap Nat).Set "a" (some 1)).2.Stop.2.calls
        [Call.Get "a", Call.IsRunning]).Stop).1 = Result.panic panicMsg :=
  (post_stop_precondition ((NewLFmap : LFmap Nat).Set "a" (some 1)).2
    ((NewLFmap : LFmap Nat).Set "a" (some 1)).2.Stop.2 rfl
    [Call.Get "a", Call.IsRunning] "a" none).2.2.2.2.2

/-- C7 — Stop does not end the worker's loop.  Evaluated on the code: after
`Set("k", 1)` and `Stop()` on a new map the worker is again waiting in the
receive of its loop and still holds key `"k"`; and a worker that is fed the
commands stop, set `"k"` to 1, get `"k"` reads and applies the `set` and
answers the `get` with `(1, true)`. -/
theorem worker_loops_after_stop :
    ((NewLFmap : LFmap Nat).calls [Call.Set "k" (some 1), Call.Stop]).worker
      = { im := [("k", { key := "k", value := some 1 })], loc := Loc.recv } ∧
    Worker.run ({ im := [], loc := Loc.recv } : Worker Nat)
        [{ operation := stop, data := none },
         { operation := set, data := some { key := "k", value := some 1 } },
         { operation := get, data := some { key := "k", value := none } }]
      = ([Msg.onGet { value := some 1, «exists» := true }],
         { im := [("k", { key := "k", value := some 1 })], loc := Loc.recv }) := by
  constructor
  · decide
  · decide

theorem isStop_iff (c : Call α) : c.isStop = true ↔ c = Call.Stop := by
  cases c <;> simp [Call.isStop]

theorem any_isStop_iff (cs : List (Call α)) :
    cs.any Call.isStop = true ↔ Call.Stop ∈ cs := by
  induction cs with
  | nil => simp
  | cons c cs ih =>
    simp only [List.any_cons, Bool.or_eq_true, ih, isStop_iff, List.mem_cons]
    constructor
    · rintro (h | h)
      · exact Or.inl h.symm
      · exact Or.inr h
    · rintro (h | h)
      · exact Or.inl h.symm
      · exact Or.inr h

/-- The flag after one call: it is cleared by `Stop` and kept by every other
call. -/
theorem call_running (m : LFmap α) (c : Call α) (hloc : m.worker.loc = Loc.recv) :
    (m.call c).2.running = (m.running && !c.isStop) := by
  cases hrun : m.running
  · rw [call_stopped_state m c hrun]; simp [hrun]
  · cases c <;>
      simp [LFmap.call, Get_running, Set_running, Remove_running, Exists_running,
        Stop_running, hrun, hloc, Call.isStop]

theorem calls_running (cs : List (Call α)) (m : LFmap α) (hloc : m.worker.loc = Loc.recv) :
    (m.calls cs).running = (m.running && !cs.any Call.isStop) := by
  induction cs generalizing m with
  | nil => simp [LFmap.calls]
  | cons c cs ih =>
    show ((m.call c).2.calls cs).running = _
    rw [ih _ (call_loc m c hloc), call_running m c hloc, List.any_cons]
    cases m.running <;> cases c.isStop <;> simp

/-- C8 — Lifecycle state machine.  For every finite sequence `cs` of calls on a
handle built by `NewLFmap`: `IsRunning()` is `true` right after construction;
after `cs` it is `true` exactly when `cs` contains no `Stop`; a further call
other than `Stop` leaves it as it is; a further `Stop` on a running handle
returns and makes it `false`; and once `false` it is `false` after any further
call. -/
theorem lifecycle_state_machine (cs : List (Call α)) :
    (NewLFmap : LFmap α).IsRunning = true ∧
    (((NewLFmap : LFmap α).calls cs).IsRunning = true ↔ Call.Stop ∉ cs) ∧
    (∀ c : Call α, c ≠ Call.Stop →
      (((NewLFmap : LFmap α).calls cs).call c).2.IsRunning
        = ((NewLFmap : LFmap α).calls cs).IsRunning) ∧
    (((NewLFmap : LFmap α).calls cs).IsRunning = true →
      ((NewLFmap : LFmap α).calls cs).Stop.1 = Result.ret () ∧
      ((NewLFmap : LFmap α).calls cs).Stop.2.IsRunning = false) ∧
    (∀ c : Call α, ((NewLFmap : LFmap α).calls cs).IsRunning = false →
      (((NewLFmap : LFmap α).calls cs).call c).2.IsRunning = false) := by
  have hloc := calls_loc cs (NewLFmap : LFmap α) rfl
  refine ⟨rfl, ?_, ?_, ?_, ?_⟩
  · unfold LFmap.IsRunning
    rw [calls_running cs _ rfl, ← any_isStop_iff]
    simp [NewLFmap]
  · intro c hc
    unfold LFmap.IsRunning
    have hs : c.isStop = false := by
      cases h : c.isStop
      · rfl
      · exact absurd ((isStop_iff c).1 h) hc
    rw [call_running _ c hloc, hs]
    simp
  · intro hrun
    rw [Stop_running _ hrun hloc]
    exact ⟨rfl, rfl⟩
  · intro c hrun
    unfold LFmap.IsRunning at hrun ⊢
    rw [call_running _ c hloc, hrun]
    rfl

/-- C9 — No failure while running.  On every handle whose worker waits for a
command, for every key (the empty string included), every value (nil
included) and every content of the map, each of `Get`, `Set`, `Remove` and
`Exists` fails to return exactly when the handle is not running; and on a
running handle a missing key makes `Get` return `(nil, false)`, `Exists`
return `false` and `Remove` return. -/
theorem no_failure_while_running (m : LFmap α) (k : String) (v : Option α)
    (hloc : m.worker.loc = Loc.recv) :
    (m.Get k).1.failed = !m.running ∧
    (m.Set k v).1.failed = !m.running ∧
    (m.Remove k).1.failed = !m.running ∧
    (m.Exists k).1.failed = !m.running ∧
    (m.running = true → mapIndex m.worker.im k = none →
      (m.Get k).1 = Result.ret (none, false) ∧
      (m.Exists k).1 = Result.ret false ∧
      (m.Remove k).1 = Result.ret ()) := by
  cases hrun : m.running
  · simp [Get_stopped, Set_stopped, Remove_stopped, Exists_stopped, hrun, Result.failed]
  · rw [Get_running m k hrun hloc, Set_running m k v hrun hloc, Remove_running m k hrun hloc,
      Exists_running m k hrun hloc]
    refine ⟨rfl, rfl, rfl, rfl, ?_⟩
    intro _ habs
    simp [lookupResult, habs]

/-- Instance of C9: the empty key on a new map. -/
theorem no_failure_while_running_witness :
    ((NewLFmap : LFmap Nat).Get "").1 = Result.ret (none, false) ∧
    ((NewLFmap : LFmap Nat).Set "" none).1.failed = false :=
  ⟨((no_failure_while_running (NewLFmap : LFmap Nat) "" none rfl).2.2.2.2 rfl rfl).1,
   (no_failure_while_running (NewLFmap : LFmap Nat) "" none rfl).2.1⟩

/-- C10 — IsRunning is a pure read.  In every state of the handle and of its
worker, running or stopped, `IsRunning()` returns the value of the running
flag, and the call returns normally and leaves the whole state, worker and map
included, as it was. -/
theorem isRunning_pure_read (m : LFmap α) :
    m.IsRunning = m.running ∧
    m.call Call.IsRunning = (Result.ret (Reply.flag m.running), m) :=
  ⟨rfl, rfl⟩

/-- A key that is present keeps its entry under every call other than a `Set`
or a `Remove` of that key. -/
theorem call_present (m : LFmap α) (c : Call α) (k : String) (e : entry α)
    (hloc : m.worker.loc = Loc.recv) (hpres : mapIndex m.worker.im k = some e)
    (hset : ∀ v, c ≠ Call.Set k v) (hrem : c ≠ Call.Remove k) :
    mapIndex (m.call c).2.worker.im k = some e := by
  cases hrun : m.running
  · rw [call_stopped_state m c hrun]; exact hpres
  · cases c with
    | Get key => simpa [LFmap.call, Get_running, hrun, hloc] using hpres
    | Set key value =>
      have hne : key ≠ k := by
        intro h
        exact hset value (by rw [h])
      simp only [LFmap.call, Set_running m key value hrun hloc]
      rw [mapIndex_mapAssign_ne _ _ _ _ hne]
      exact hpres
    | Remove key =>
      have hne : key ≠ k := by
        intro h
        exact hrem (by rw [h])
      simp only [LFmap.call, Remove_running m key hrun hloc]
      rw [mapIndex_mapDelete_ne _ _ _ hne]
      exact hpres
    | Exists key => simpa [LFmap.call, Exists_running, hrun, hloc] using hpres
    | Stop => simpa [LFmap.call, Stop_running, hrun, hloc] using hpres
    | IsRunning => simpa [LFmap.call] using hpres

theorem calls_present (cs : List (Call α)) (m : LFmap α) (k : String) (e : entry α)
    (hloc : m.worker.loc = Loc.recv) (hpres : mapIndex m.worker.im k = some e)
    (hset : ∀ v, Call.Set k v ∉ cs) (hrem : Call.Remove k ∉ cs) :
    mapIndex (m.calls cs).worker.im k = some e := by
  induction cs generalizing m with
  | nil => exact hpres
  | cons c cs ih =>
    refine ih _ (call_loc m c hloc) (call_present m c k e hloc hpres ?_ ?_) ?_ ?_
    · intro v hv
      exact hset v (by simp [hv])
    · intro hv
      exact hrem (by simp [hv])
    · intro v hv
      exact hset v (by simp [hv])
    · intro hv
      exact hrem (by simp [hv])

/-- C11 — No cross-talk between keys.  On every running handle whose worker
waits for a command and for all keys `k ≠ k'`: `Set(k, v)` and `Remove(k)` leave
the results of `Get(k')` and of `Exists(k')` as they were.  Hence, after
`Set(k, v)`, whatever calls follow, as long as none of them is a `Set` or a
`Remove` of `k` and the handle is still running, `Get(k)` returns
`(v, true)`. -/
theorem no_cross_talk (m : LFmap α) (k k' : String) (v : Option α)
    (hne : k ≠ k') (hrun : m.running = true) (hloc : m.worker.loc = Loc.recv) :
    ((m.Set k v).2.Get k').1 = (m.Get k').1 ∧
    ((m.Set k v).2.Exists k').1 = (m.Exists k').1 ∧
    ((m.Remove k).2.Get k').1 = (m.Get k').1 ∧
    ((m.Remove k).2.Exists k').1 = (m.Exists k').1 ∧
    (∀ cs : List (Call α), (∀ v', Call.Set k v' ∉ cs) → Call.Remove k ∉ cs →
      ((m.Set k v).2.calls cs).running = true →
      (((m.Set k v).2.calls cs).Get k).1 = Result.ret (v, true)) := by
  refine ⟨?_, ?_, ?_, ?_, ?_⟩
  · rw [Set_running m k v hrun hloc, Get_running _ k' rfl rfl, Get_running m k' hrun hloc]
    simp [lookupResult, mapIndex_mapAssign_ne _ _ _ _ hne]
  · rw [Set_running m k v hrun hloc, Exists_running _ k' rfl rfl, Exists_running m k' hrun hloc]
    simp [mapIndex_mapAssign_ne _ _ _ _ hne]
  · rw [Remove_running m k hrun hloc, Get_running _ k' rfl rfl, Get_running m k' hrun hloc]
    simp [lookupResult, mapIndex_mapDelete_ne _ _ _ hne]
  · rw [Remove_running m k hrun hloc, Exists_running _ k' rfl rfl, Exists_running m k' hrun hloc]
    simp [mapIndex_mapDelete_ne _ _ _ hne]
  · intro cs hset hrem hend
    have h1 : (m.Set k v).2.worker.loc = Loc.recv := by
      rw [Set_running m k v hrun hloc]
    have h2 : mapIndex (m.Set k v).2.worker.im k = some { key := k, value := v } := by
      rw [Set_running m k v hrun hloc]
      exact mapIndex_mapAssign_self _ _ _
    have h3 := calls_present cs _ k _ h1 h2 hset hrem
    rw [Get_running _ k hend (calls_loc cs _ h1)]
    simp [lookupResult, h3]

/-- Instance of C11: `"key0"` keeps its value while `"key1"` is set, read and
removed. -/
theorem no_cross_talk_witness :
    ((((NewLFmap : LFmap Nat).Set "key0" (some 10)).2.calls
        [Call.Set "key1" (some 11), Call.Get "key1", Call.Remove "key1"]).Get "key0").1
      = Result.ret (some 10, true) :=
  (no_cross_talk (NewLFmap : LFmap Nat) "key0" "key1" (some 10) (by decide) rfl rfl).2.2.2.2
    [Call.Set "key1" (some 11), Call.Get "key1", Call.Remove "key1"]
    (by intro v; simp) (by simp) (by decide)

/-- C12 — Stop leaves every key in the worker's map.  Evaluated on the code:
the worker's clause for a stop command returns to the receive with the map it
had, so after `Set("a", 1)`, `Set("b", nil)` and `Stop()` on a new map the
worker still holds both keys. -/
theorem stop_keeps_all_keys :
    (dispatch ([("b", { key := "b", value := none }), ("a", { key := "a", value := some 1 })]
        : GoMap Nat) { operation := stop, data := none })
      = { im := [("b", { key := "b", value := none }), ("a", { key := "a", value := some 1 })],
          loc := Loc.recv } ∧
    ((NewLFmap : LFmap Nat).calls
        [Call.Set "a" (some 1), Call.Set "b" none, Call.Stop]).worker.im
      = [("b", { key := "b", value := none }), ("a", { key := "a", value := some 1 })] := by
  constructor
  · decide
  · decide

/-- The simulation between a handle and a reference map: the handle is running,
its worker waits for a command, and both hold the same values under the same
keys. -/
theorem refines_step (m : LFmap α) (r : RefMap α) (d : DataCall α)
    (hrun : m.running = true) (hloc : m.worker.loc = Loc.recv)
    (hsim : ∀ j, r j = (mapIndex m.worker.im j).map (fun e => e.value)) :
    (m.call d.toCall).1 = Result.ret (r.call d).1 ∧
    (m.call d.toCall).2.running = true ∧
    (m.call d.toCall).2.worker.loc = Loc.recv ∧
    (∀ j, (r.call d).2 j = (mapIndex (m.call d.toCall).2.worker.im j).map (fun e => e.value)) := by
  cases d with
  | Get k =>
    simp only [DataCall.toCall, LFmap.call, Get_running m k hrun hloc, RefMap.call, hsim k,
      lookupResult]
    refine ⟨?_, hrun, hloc, ?_⟩
    · cases mapIndex m.worker.im k <;> rfl
    · intro j
      cases mapIndex m.worker.im k <;> exact hsim j
  | Set k v =>
    simp only [DataCall.toCall, LFmap.call, Set_running m k v hrun hloc, RefMap.call]
    refine ⟨rfl, trivial, trivial, ?_⟩
    intro j
    by_cases hj : j = k
    · subst hj
      simp [RefMap.insert, mapIndex_mapAssign_self]
    · have hne : k ≠ j := fun h => hj h.symm
      simp [RefMap.insert, hj, mapIndex_mapAssign_ne _ _ _ _ hne, hsim j]
  | Remove k =>
    simp only [DataCall.toCall, LFmap.call, Remove_running m k hrun hloc, RefMap.call]
    refine ⟨rfl, trivial, trivial, ?_⟩
    intro j
    by_cases hj : j = k
    · subst hj
      simp [RefMap.erase, mapIndex_mapDelete_self]
    · have hne : k ≠ j := fun h => hj h.symm
      simp [RefMap.erase, hj, mapIndex_mapDelete_ne _ _ _ hne, hsim j]
  | Exists k =>
    simp only [DataCall.toCall, LFmap.call, Exists_running m k hrun hloc, RefMap.call, hsim k]
    refine ⟨?_, hrun, hloc, hsim⟩
    cases mapIndex m.worker.im k <;> rfl

theorem refines_trace (ds : List (DataCall α)) (m : LFmap α) (r : RefMap α)
    (hrun : m.running = true) (hloc : m.worker.loc = Loc.recv)
    (hsim : ∀ j, r j = (mapIndex m.worker.im j).map (fun e => e.value)) :
    m.trace (ds.map DataCall.toCall) = (r.trace ds).map Result.ret := by
  induction ds generalizing m r with
  | nil => rfl
  | cons d ds ih =>
    obtain ⟨h1, h2, h3, h4⟩ := refines_step m r d hrun hloc hsim
    simp only [List.map_cons, LFmap.trace, RefMap.trace, h1]
    rw [ih _ _ h2 h3 h4]

/-- C14 — The store refines a plain mapping.  For every finite sequence of
`Get`/`Set`/`Remove`/`Exists` calls made one after the other on a handle built
by `NewLFmap`, every call returns, and the sequence of results is the one the
reference partial map produces from the empty map. -/
theorem store_refines_plain_map (ds : List (DataCall α)) :
    (NewLFmap : LFmap α).trace (ds.map DataCall.toCall)
      = ((RefMap.empty : RefMap α).trace ds).map Result.ret :=
  refines_trace ds NewLFmap RefMap.empty rfl rfl (fun _ => rfl)

/-- C15 — Exists agrees with Get.  On every running handle whose worker waits
for a command and for every key `k`, `Exists(k)` and `Get(k)` both return and
`Exists(k)` returns the found flag of `Get(k)`; a key stored with a nil value
exists. -/
theorem exists_agrees_with_get (m : LFmap α) (k : String)
    (hrun : m.running = true) (hloc : m.worker.loc = Loc.recv) :
    (m.Exists k).1 = (m.Get k).1.map (fun p => p.2) ∧
    (∃ v b, (m.Get k).1 = Result.ret (v, b) ∧ (m.Exists k).1 = Result.ret b) ∧
    ((m.Set k none).2.Get k).1 = Result.ret (none, true) ∧
    ((m.Set k none).2.Exists k).1 = Result.ret true := by
  refine ⟨?_, ?_, ?_, ?_⟩
  · rw [Exists_running m k hrun hloc, Get_running m k hrun hloc]
    simp only [Result.map, lookupResult]
    cases mapIndex m.worker.im k <;> rfl
  · refine ⟨(lookupResult m.worker.im k).1, (lookupResult m.worker.im k).2, ?_, ?_⟩
    · rw [Get_running m k hrun hloc]
    · rw [Exists_running m k hrun hloc]
      simp only [lookupResult]
      cases mapIndex m.worker.im k <;> rfl
  · rw [Set_running m k none hrun hloc, Get_running _ k rfl rfl]
    simp [lookupResult, mapIndex_mapAssign_self]
  · rw [Set_running m k none hrun hloc, Exists_running _ k rfl rfl]
    simp [mapIndex_mapAssign_self]

/-- Instance of C15: a key stored with nil on a new map. -/
theorem exists_agrees_with_get_witness :
    (((NewLFmap : LFmap Nat).Set "n" none).2.Exists "n").1
      = (((NewLFmap : LFmap Nat).Set "n" none).2.Get "n").1.map (fun p => p.2) :=
  (exists_agrees_with_get ((NewLFmap : LFmap Nat).Set "n" none).2 "n" rfl rfl).1

/-- C16 — Per-request response protocol.  A worker at its receive that
processes one request sends exactly one result on the get channel for a get
request, exactly one boolean on the exists channel for an exists request, and
nothing for a set, a remove or a stop request.  On a handle whose worker is at
its receive, after every call the worker is at its receive again and a
receive on either answer channel finds nothing.  On such a handle that is
running: the command of `Get` is taken by the worker, which then offers one
result on the get channel and nothing on the exists channel, `Get` takes that
result and returns it; the same for `Exists` with the two channels exchanged;
the commands of `Set`, `Remove` and `Stop` are taken by the worker, which goes
back to its receive without offering anything, and the three methods
return. -/
theorem response_protocol (im : GoMap α) (key : String) (v : Option α)
    (d : Option (entry α)) (m : LFmap α) (c : Call α)
    (hloc : m.worker.loc = Loc.recv) :
    (Worker.run { im := im, loc := Loc.recv }
        [{ operation := get, data := some { key := key, value := v } }]).1
      = [Msg.onGet { value := (lookupResult im key).1, «exists» := (lookupResult im key).2 }] ∧
    (Worker.run { im := im, loc := Loc.recv }
        [{ operation := «exists», data := some { key := key, value := v } }]).1
      = [Msg.onExists (mapIndex im key).isSome] ∧
    (Worker.run { im := im, loc := Loc.recv }
        [{ operation := set, data := some { key := key, value := v } }]).1 = [] ∧
    (Worker.run { im := im, loc := Loc.recv }
        [{ operation := remove, data := some { key := key, value := v } }]).1 = [] ∧
    (Worker.run { im := im, loc := Loc.recv } [{ operation := stop, data := d }]).1 = [] ∧
    (m.call c).2.worker.loc = Loc.recv ∧
    recvGet (m.call c).2.worker = Except.error Halt.deadlock ∧
    recvExists (m.call c).2.worker = Except.error Halt.deadlock ∧
    (m.running = true →
      (sendCommand m.worker { operation := get, data := some { key := key, value := none } }
          = Except.ok { im := m.worker.im, loc := Loc.sendGet (getAnswer m.worker.im key) } ∧
        recvExists { im := m.worker.im, loc := Loc.sendGet (getAnswer m.worker.im key) }
          = Except.error Halt.deadlock ∧
        recvGet { im := m.worker.im, loc := Loc.sendGet (getAnswer m.worker.im key) }
          = Except.ok (getAnswer m.worker.im key, { im := m.worker.im, loc := Loc.recv }) ∧
        m.Get key = (Result.ret ((getAnswer m.worker.im key).value,
          (getAnswer m.worker.im key).exists), m)) ∧
      (sendCommand m.worker
            { operation := «exists», data := some { key := key, value := none } }
          = Except.ok { im := m.worker.im,
                        loc := Loc.sendExists (mapIndex m.worker.im key).isSome } ∧
        recvGet { im := m.worker.im, loc := Loc.sendExists (mapIndex m.worker.im key).isSome }
          = Except.error Halt.deadlock ∧
        recvExists { im := m.worker.im,
                     loc := Loc.sendExists (mapIndex m.worker.im key).isSome }
          = Except.ok ((mapIndex m.worker.im key).isSome,
              { im := m.worker.im, loc := Loc.recv }) ∧
        m.Exists key = (Result.ret (mapIndex m.worker.im key).isSome, m)) ∧
      (sendCommand m.worker { operation := set, data := some { key := key, value := v } }
          = Except.ok { im := mapAssign m.worker.im key { key := key, value := v },
                        loc := Loc.recv } ∧
        m.Set key v = (Result.ret (),
          { worker := { im := mapAssign m.worker.im key { key := key, value := v },
                        loc := Loc.recv },
            running := true })) ∧
      (sendCommand m.worker { operation := remove, data := some { key := key, value := none } }
          = Except.ok { im := mapDelete m.worker.im key, loc := Loc.recv } ∧
        m.Remove key = (Result.ret (),
          { worker := { im := mapDelete m.worker.im key, loc := Loc.recv },
            running := true })) ∧
      (sendCommand m.worker { operation := stop, data := none }
          = Except.ok { im := m.worker.im, loc := Loc.recv } ∧
        m.Stop = (Result.ret (),
          { worker := { im := m.worker.im, loc := Loc.recv }, running := false }))) := by
  have hc := call_loc m c hloc
  refine ⟨?_, ?_, ?_, ?_, ?_, hc, ?_, ?_, ?_⟩
  · simp only [Worker.run, dispatch, lookupResult]
    cases mapIndex im key <;> simp
  · simp [Worker.run, dispatch, get, set, remove, «exists»]
  · simp [Worker.run, dispatch, get, set]
  · simp [Worker.run, dispatch, get, set, remove]
  · simp [Worker.run, dispatch, get, set, remove, «exists», stop]
  · simp [recvGet, hc]
  · simp [recvExists, hc]
  · intro hrun
    refine ⟨⟨?_, rfl, rfl, ?_⟩, ⟨?_, rfl, rfl, Exists_running m key hrun hloc⟩,
      ⟨?_, Set_running m key v hrun hloc⟩, ⟨?_, Remove_running m key hrun hloc⟩,
      ⟨?_, Stop_running m hrun hloc⟩⟩
    · simp only [sendCommand, hloc, dispatch, getAnswer]
      cases mapIndex m.worker.im key <;> simp
    · rw [Get_running m key hrun hloc]
      simp only [lookupResult, getAnswer]
      cases mapIndex m.worker.im key <;> rfl
    · simp [sendCommand, hloc, dispatch, get, set, remove, «exists»]
    · simp [sendCommand, hloc, dispatch, get, set]
    · simp [sendCommand, hloc, dispatch, get, set, remove]
    · simp [sendCommand, hloc, dispatch, get, set, remove, «exists», stop]

/-- Instance of C16: on a map that holds `"a"`, the worker takes the command of
`Get("a")` and offers the stored value, and `Get("a")` returns it, leaving the
worker at its receive. -/
theorem response_protocol_witness :
    ((NewLFmap : LFmap Nat).Set "a" (some 4)).2.Get "a"
      = (Result.ret (some 4, true), ((NewLFmap : LFmap Nat).Set "a" (some 4)).2) ∧
    sendCommand ((NewLFmap : LFmap Nat).Set "a" (some 4)).2.worker
        { operation := get, data := some { key := "a", value := none } }
      = Except.ok { im := [("a", { key := "a", value := some 4 })],
                    loc := Loc.sendGet { value := some 4, «exists» := true } } ∧
    recvGet (((NewLFmap : LFmap Nat).Set "a" (some 4)).2.call (Call.Get "a")).2.worker
      = Except.error Halt.deadlock :=
  ⟨((response_protocol ([] : GoMap Nat) "a" none none
      ((NewLFmap : LFmap Nat).Set "a" (some 4)).2 (Call.Get "a") rfl).2.2.2.2.2.2.2.2 rfl).1.2.2.2,
   ((response_protocol ([] : GoMap Nat) "a" none none
      ((NewLFmap : LFmap Nat).Set "a" (some 4)).2 (Call.Get "a") rfl).2.2.2.2.2.2.2.2 rfl).1.1,
   (response_protocol ([] : GoMap Nat) "a" none none
      ((NewLFmap : LFmap Nat).Set "a" (some 4)).2 (Call.Get "a") rfl).2.2.2.2.2.2.1⟩

/-- C17 — Reads do not mutate.  On every running handle whose worker waits for
a command and for every key `k`, `Get(k)` and `Exists(k)` leave the whole state
(map, worker, running flag) as it was, so a `Get` or an `Exists` repeated after
any number of reads of `k` returns what the first one returned. -/
theorem reads_do_not_mutate (m : LFmap α) (k : String)
    (hrun : m.running = true) (hloc : m.worker.loc = Loc.recv) :
    (m.Get k).2 = m ∧
    (m.Exists k).2 = m ∧
    ((m.Get k).2.Get k).1 = (m.Get k).1 ∧
    ((m.Exists k).2.Exists k).1 = (m.Exists k).1 ∧
    ((m.Exists k).2.Get k).1 = (m.Get k).1 ∧
    ((m.Get k).2.Exists k).1 = (m.Exists k).1 := by
  have hg : (m.Get k).2 = m := by rw [Get_running m k hrun hloc]
  have he : (m.Exists k).2 = m := by rw [Exists_running m k hrun hloc]
  refine ⟨hg, he, ?_, ?_, ?_, ?_⟩
  · rw [hg]
  · rw [he]
  · rw [he]
  · rw [hg]

/-- Instance of C17: reading a stored key twice. -/
theorem reads_do_not_mutate_witness :
    (((((NewLFmap : LFmap Nat).Set "a" (some 3)).2.Get "a").2.Get "a").1
      = (((NewLFmap : LFmap Nat).Set "a" (some 3)).2.Get "a").1) :=
  (reads_do_not_mutate ((NewLFmap : LFmap Nat).Set "a" (some 3)).2 "a" rfl rfl).2.2.1

/-- C18 — Misuse is atomic.  On a handle whose running flag is false, whatever
the worker is doing, each of `Get`, `Set`, `Remove`, `Exists` and `Stop` panics
with the misuse message and leaves the whole state, the worker's map and the
flag included, as it was: no command reaches the worker. -/
theorem misuse_is_atomic (m : LFmap α) (k : String) (v : Option α)
    (h : m.running = false) :
    m.Get k = (Result.panic panicMsg, m) ∧
    m.Set k v = (Result.panic panicMsg, m) ∧
    m.Remove k = (Result.panic panicMsg, m) ∧
    m.Exists k = (Result.panic panicMsg, m) ∧
    m.Stop = (Result.panic panicMsg, m) :=
  ⟨Get_stopped m k h, Set_stopped m k v h, Remove_stopped m k h, Exists_stopped m k h,
    Stop_stopped m h⟩

/-- Instance of C18: a `Set` on a stopped handle that holds one key. -/
theorem misuse_is_atomic_witness :
    ((((NewLFmap : LFmap Nat).Set "a" (some 1)).2.Stop.2.Set "b" (some 2))
      = (Result.panic panicMsg, ((NewLFmap : LFmap Nat).Set "a" (some 1)).2.Stop.2)) :=
  (misuse_is_atomic ((NewLFmap : LFmap Nat).Set "a" (some 1)).2.Stop.2 "b" (some 2) rfl).2.1

/-- The worker survives every request a handle method builds. -/
theorem dispatch_request_loc (im : GoMap α) (c : Call α) (cmd : command α)
    (h : c.request = some cmd) : (dispatch im cmd).loc ≠ Loc.crashed := by
  cases c with
  | Get k =>
    simp only [Call.request, Option.some.injEq] at h
    subst h
    simp only [dispatch]
    cases mapIndex im k <;> simp
  | Set k v =>
    simp only [Call.request, Option.some.injEq] at h
    subst h
    simp [dispatch, get, set]
  | Remove k =>
    simp only [Call.request, Option.some.injEq] at h
    subst h
    simp [dispatch, get, set, remove]
  | Exists k =>
    simp only [Call.request, Option.some.injEq] at h
    subst h
    simp [dispatch, get, set, remove, «exists»]
  | Stop =>
    simp only [Call.request, Option.some.injEq] at h
    subst h
    simp [dispatch, get, set, remove, «exists», stop]
  | IsRunning => simp [Call.request] at h

/-- No call of a handle method on a handle whose worker is at its receive ends
blocked or with a dead worker. -/
theorem call_not_halt (m : LFmap α) (c : Call α) (hloc : m.worker.loc = Loc.recv)
    (h : Halt) : (m.call c).1 ≠ Result.halt h := by
  cases hrun : m.running
  · cases c <;>
      simp [LFmap.call, Get_stopped, Set_stopped, Remove_stopped, Exists_stopped,
        Stop_stopped, hrun, Result.map]
  · cases c <;>
      simp [LFmap.call, Get_running, Set_running, Remove_running, Exists_running,
        Stop_running, hrun, hloc, Result.map]

/-- C19 — Requests are well formed for the worker.  The command a running
handle sends in `Get`, `Set`, `Remove`, `Exists` and `Stop` is the one
`Call.request` builds; for `Get`, `Set`, `Remove` and `Exists` it carries an
operation code between 1 and 4 and a non-nil entry holding the caller's key
(and, for `Set`, the caller's value); the `Stop` request is the only one with
a nil entry, and the worker's stop clause does not read the entry.  So the
worker does not die on any request built by a method, and along every
sequence of calls on a handle built by `NewLFmap` the worker is alive at its
receive and no call ends blocked or with a dead worker. -/
theorem requests_well_formed (m : LFmap α) (key : String) (value : Option α)
    (im : GoMap α) (cs : List (Call α)) (c : Call α) (h : Halt) :
    (∀ cmd, (Call.Get key : Call α).request = some cmd →
      cmd.operation = 1 ∧ cmd.data = some { key := key, value := none } ∧
      (m.running = true → m.Get key =
        match sendCommand m.worker cmd with
        | Except.error e => (Result.halt e, m)
        | Except.ok w1 =>
          match recvGet w1 with
          | Except.error e => (Result.halt e, { m with worker := w1 })
          | Except.ok (gr, w2) => (Result.ret (gr.value, gr.exists), { m with worker := w2 }))) ∧
    (∀ cmd, (Call.Set key value).request = some cmd →
      cmd.operation = 2 ∧ cmd.data = some { key := key, value := value } ∧
      (m.running = true → m.Set key value =
        match sendCommand m.worker cmd with
        | Except.error e => (Result.halt e, m)
        | Except.ok w1 => (Result.ret (), { m with worker := w1 }))) ∧
    (∀ cmd, (Call.Remove key : Call α).request = some cmd →
      cmd.operation = 3 ∧ cmd.data = some { key := key, value := none } ∧
      (m.running = true → m.Remove key =
        match sendCommand m.worker cmd with
        | Except.error e => (Result.halt e, m)
        | Except.ok w1 => (Result.ret (), { m with worker := w1 }))) ∧
    (∀ cmd, (Call.Exists key : Call α).request = some cmd →
      cmd.operation = 4 ∧ cmd.data = some { key := key, value := none } ∧
      (m.running = true → m.Exists key =
        match sendCommand m.worker cmd with
        | Except.error e => (Result.halt e, m)
        | Except.ok w1 =>
          match recvExists w1 with
          | Except.error e => (Result.halt e, { m with worker := w1 })
          | Except.ok (b, w2) => (Result.ret b, { m with worker := w2 }))) ∧
    (∀ cmd, (Call.Stop : Call α).request = some cmd →
      cmd.operation = 5 ∧ cmd.data = none ∧
      dispatch im cmd = { im := im, loc := Loc.recv } ∧
      (m.running = true → m.Stop =
        match sendCommand m.worker cmd with
        | Except.error e => (Result.halt e, m)
        | Except.ok w1 => (Result.ret (), { worker := w1, running := false }))) ∧
    (∀ cmd, c.request = some cmd → (cmd.data = none ↔ c = Call.Stop)) ∧
    (∀ cmd, c.request = some cmd → (dispatch im cmd).loc ≠ Loc.crashed) ∧
    ((NewLFmap : LFmap α).calls cs).worker.loc = Loc.recv ∧
    (((NewLFmap : LFmap α).calls cs).call c).1 ≠ Result.halt h := by
  refine ⟨?_, ?_, ?_, ?_, ?_, ?_, ?_, ?_, ?_⟩
  · intro cmd hc
    simp only [Call.request, Option.some.injEq] at hc
    subst hc
    refine ⟨rfl, rfl, ?_⟩
    intro hrun
    simp [LFmap.Get, hrun]
  · intro cmd hc
    simp only [Call.request, Option.some.injEq] at hc
    subst hc
    refine ⟨rfl, rfl, ?_⟩
    intro hrun
    simp [LFmap.Set, hrun]
  · intro cmd hc
    simp only [Call.request, Option.some.injEq] at hc
    subst hc
    refine ⟨rfl, rfl, ?_⟩
    intro hrun
    simp [LFmap.Remove, hrun]
  · intro cmd hc
    simp only [Call.request, Option.some.injEq] at hc
    subst hc
    refine ⟨rfl, rfl, ?_⟩
    intro hrun
    simp [LFmap.Exists, hrun]
  · intro cmd hc
    simp only [Call.request, Option.some.injEq] at hc
    subst hc
    refine ⟨rfl, rfl, ?_, ?_⟩
    · simp [dispatch, get, set, remove, «exists», stop]
    · intro hrun
      simp [LFmap.Stop, hrun]
  · intro cmd hc
    cases c with
    | IsRunning => simp [Call.request] at hc
    | Get k => simp only [Call.request, Option.some.injEq] at hc; subst hc; simp
    | Set k v => simp only [Call.request, Option.some.injEq] at hc; subst hc; simp
    | Remove k => simp only [Call.request, Option.some.injEq] at hc; subst hc; simp
    | Exists k => simp only [Call.request, Option.some.injEq] at hc; subst hc; simp
    | Stop => simp only [Call.request, Option.some.injEq] at hc; subst hc; simp
  · intro cmd hc
    exact dispatch_request_loc im c cmd hc
  · exact calls_loc cs _ rfl
  · exact call_not_halt _ c (calls_loc cs _ rfl) h

/-! ## Invariants of the shared handle -/

end lfmap
